import Mathlib

/-!
Verification of the WindrawWin predictions scraper (src/lolopal.py).

The development shallowly embeds the pure content of the scraper:
strings are lists of characters, DOM queries are fields of an explicit
container model, and the retry loop of the fetcher is a function over a
schedule of attempt outcomes.  Every definition is translated from the
Python source; definitions that instead follow the specification's words
(for refinement comparisons) say so in their doc comment.
-/

namespace Lolopal

/-- Whitespace test used to model both Python's str.strip() and the
regex class in re.sub applied in clean_text (src/lolopal.py line 177). -/
def isWs (c : Char) : Bool :=
  c.isWhitespace

/-- Boolean test that pat occurs at the very start of s. -/
def startsWith : List Char → List Char → Bool
  | [], _ => true
  | _ :: _, [] => false
  | p :: ps, c :: cs => p == c && startsWith ps cs

/-- Boolean test that pat occurs somewhere inside s (contiguously). -/
def containsSub (pat : List Char) : List Char → Bool
  | [] => startsWith pat []
  | c :: cs => startsWith pat (c :: cs) || containsSub pat cs

/-- Model of one pass of re.sub with a single-space replacement for each
maximal whitespace run: the flag records whether the previous character
was part of a whitespace run (src/lolopal.py line 177). -/
def collapseAux : Bool → List Char → List Char
  | _, [] => []
  | prevWs, c :: cs =>
    if isWs c then
      if prevWs then collapseAux true cs
      else ' ' :: collapseAux true cs
    else
      c :: collapseAux false cs

/-- Collapse every whitespace run of s to a single space, modelling
re.sub applied in clean_text (src/lolopal.py line 177). -/
def collapseWs (s : List Char) : List Char :=
  collapseAux false s

/-- Drop leading whitespace, the left half of Python's str.strip(). -/
def lstrip (s : List Char) : List Char :=
  s.dropWhile isWs

/-- Drop trailing whitespace, the right half of Python's str.strip(). -/
def rstrip (s : List Char) : List Char :=
  (s.reverse.dropWhile isWs).reverse

/-- Python's str.strip() on the character-list model. -/
def strip (s : List Char) : List Char :=
  rstrip (lstrip s)

/-- Fuel-driven engine of Python's str.replace: scan left to right, at
each position either rewrite one non-overlapping occurrence of the
pattern (p :: ps) to repl or keep one character.  The fuel dominates the
length of the scanned list so the zero-fuel branch is never reached when
the function is applied through replaceSub. -/
def replAux (p : Char) (ps repl : List Char) : Nat → List Char → List Char
  | _, [] => []
  | 0, s => s
  | fuel + 1, c :: cs =>
    if startsWith (p :: ps) (c :: cs) then
      repl ++ replAux p ps repl fuel (cs.drop ps.length)
    else
      c :: replAux p ps repl fuel cs

/-- Python's s.replace(pat, repl) for a nonempty pattern p :: ps. -/
def replaceSub (p : Char) (ps repl s : List Char) : List Char :=
  replAux p ps repl s.length s

/-- Character list of the entity text removed by clean_text. -/
def nbspTok : List Char := "&nbsp;".toList

/-- Character list of the entity text rewritten to an ampersand. -/
def ampTok : List Char := "&amp;".toList

/-- Model of clean_text (src/lolopal.py lines 171-180): empty input is
returned as is; otherwise the text is stripped, whitespace runs are
collapsed to single spaces, every occurrence of the nbsp entity is
deleted and every occurrence of the amp entity becomes an ampersand. -/
def clean_text (s : List Char) : List Char :=
  if s = [] then []
  else
    let t := collapseWs (strip s)
    let t1 := replaceSub '&' nbspTok.tail [] t
    replaceSub '&' ampTok.tail ['&'] t1

/-- Last character of a character list, if any. -/
def lastCh : List Char → Option Char
  | [] => none
  | [c] => some c
  | _ :: c :: cs => lastCh (c :: cs)

/-- Pattern with no whitespace characters. -/
def noWs (pat : List Char) : Bool :=
  pat.all (fun c => !isWs c)

theorem containsSub_of_startsWith (pat s : List Char)
    (h : startsWith pat s = true) : containsSub pat s = true := by
  cases s with
  | nil => simpa [containsSub] using h
  | cons c cs => simp [containsSub, h]

theorem containsSub_cons (pat : List Char) (c : Char) (cs : List Char)
    (h : containsSub pat cs = true) : containsSub pat (c :: cs) = true := by
  simp [containsSub, h]

theorem startsWith_nil_pat (s : List Char) : startsWith [] s = true := by
  cases s <;> simp [startsWith]

theorem containsSub_nil_pat (s : List Char) : containsSub [] s = true := by
  induction s with
  | nil => simp [containsSub, startsWith]
  | cons c cs ih => simp [containsSub, startsWith_nil_pat, ih]

theorem startsWith_append (pat t v : List Char)
    (h : startsWith pat t = true) : startsWith pat (t ++ v) = true := by
  induction pat generalizing t with
  | nil => exact startsWith_nil_pat _
  | cons p ps ih =>
    cases t with
    | nil => simp [startsWith] at h
    | cons c cs =>
      simp only [startsWith, Bool.and_eq_true] at h
      simp only [List.cons_append, startsWith, Bool.and_eq_true]
      exact ⟨h.1, ih cs h.2⟩

theorem containsSub_append_right (pat t v : List Char)
    (h : containsSub pat t = true) : containsSub pat (t ++ v) = true := by
  induction t with
  | nil =>
    simp only [containsSub] at h
    cases pat with
    | nil => exact containsSub_nil_pat _
    | cons p ps => simp [startsWith] at h
  | cons c cs ih =>
    simp only [containsSub, Bool.or_eq_true] at h
    rcases h with h | h
    · exact containsSub_of_startsWith _ _ (startsWith_append _ _ v h)
    · exact containsSub_cons _ _ _ (ih h)

theorem containsSub_append_left (pat u t : List Char)
    (h : containsSub pat t = true) : containsSub pat (u ++ t) = true := by
  induction u with
  | nil => exact h
  | cons c cs ih => exact containsSub_cons _ _ _ ih

theorem replAux_id (p : Char) (ps repl s : List Char)
    (h : containsSub (p :: ps) s = false) :
    ∀ fuel, replAux p ps repl fuel s = s := by
  induction s with
  | nil => intro fuel; cases fuel <;> rfl
  | cons c cs ih =>
    intro fuel
    simp only [containsSub, Bool.or_eq_false_iff] at h
    cases fuel with
    | zero => rfl
    | succ fuel =>
      have h2 := ih h.2 fuel
      simp [replAux, h.1, h2]

theorem replaceSub_id (p : Char) (ps repl s : List Char)
    (h : containsSub (p :: ps) s = false) : replaceSub p ps repl s = s :=
  replAux_id p ps repl s h s.length

theorem startsWith_collapseAux (s : List Char) :
    ∀ pat, noWs pat = true → pat ≠ [] →
    startsWith pat (collapseAux false s) = true → startsWith pat s = true := by
  induction s with
  | nil =>
    intro pat _ hne h
    cases pat with
    | nil => exact absurd rfl hne
    | cons p ps => simp [collapseAux, startsWith] at h
  | cons c cs ih =>
    intro pat hws hne h
    cases pat with
    | nil => exact absurd rfl hne
    | cons p ps =>
      by_cases hc : isWs c = true
      · simp only [collapseAux, hc, if_true, startsWith, Bool.and_eq_true,
          beq_iff_eq] at h
        obtain ⟨rfl, -⟩ := h
        simp only [noWs, List.all_cons, Bool.and_eq_true] at hws
        exact absurd hws.1 (by decide)
      · simp only [collapseAux, hc, Bool.false_eq_true, if_false, startsWith,
          Bool.and_eq_true] at h
        simp only [startsWith, Bool.and_eq_true]
        refine ⟨h.1, ?_⟩
        cases ps with
        | nil => exact startsWith_nil_pat _
        | cons q qs =>
          simp only [noWs, List.all_cons, Bool.and_eq_true] at hws
          exact ih (q :: qs) (by simp [noWs, hws.2.1, hws.2.2]) (by simp) h.2

theorem containsSub_collapseAux (pat : List Char) (hws : noWs pat = true)
    (hne : pat ≠ []) (s : List Char) :
    ∀ b, containsSub pat (collapseAux b s) = true → containsSub pat s = true := by
  induction s with
  | nil =>
    intro b h
    cases pat with
    | nil => exact absurd rfl hne
    | cons p ps => simp [collapseAux, containsSub, startsWith] at h
  | cons c cs ih =>
    intro b h
    by_cases hc : isWs c = true
    · cases b with
      | true =>
        simp only [collapseAux, hc, if_true] at h
        exact containsSub_cons _ _ _ (ih true h)
      | false =>
        simp only [collapseAux, hc, if_true, containsSub, Bool.or_eq_true] at h
        rcases h with h | h
        · cases pat with
          | nil => exact absurd rfl hne
          | cons p ps =>
            simp only [startsWith, Bool.and_eq_true, beq_iff_eq] at h
            obtain ⟨rfl, -⟩ := h
            simp only [noWs, List.all_cons, Bool.and_eq_true] at hws
            exact absurd hws.1 (by decide)
        · exact containsSub_cons _ _ _ (ih true h)
    · simp only [collapseAux, hc, Bool.false_eq_true, if_false, containsSub,
        Bool.or_eq_true] at h
      rcases h with h | h
      · cases pat with
        | nil => exact absurd rfl hne
        | cons p ps =>
          simp only [startsWith, Bool.and_eq_true] at h
          have hps : startsWith ps cs = true := by
            cases ps with
            | nil => exact startsWith_nil_pat _
            | cons q qs =>
              simp only [noWs, List.all_cons, Bool.and_eq_true] at hws
              exact startsWith_collapseAux cs (q :: qs)
                (by simp [noWs, hws.2.1, hws.2.2]) (by simp) h.2
          exact containsSub_of_startsWith _ _
            (by simp only [startsWith, Bool.and_eq_true]; exact ⟨h.1, hps⟩)
      · exact containsSub_cons _ _ _ (ih false h)

theorem dropWhile_decomp (l : List Char) :
    ∃ u, u ++ l.dropWhile isWs = l := by
  induction l with
  | nil => exact ⟨[], rfl⟩
  | cons c cs ih =>
    by_cases hc : isWs c = true
    · obtain ⟨u, hu⟩ := ih
      exact ⟨c :: u, by simp [List.dropWhile_cons, hc, hu]⟩
    · exact ⟨[], by simp [List.dropWhile_cons, hc]⟩

theorem strip_decomp (s : List Char) :
    ∃ u v, u ++ (strip s ++ v) = s := by
  obtain ⟨u, hu⟩ := dropWhile_decomp s
  obtain ⟨w, hw⟩ := dropWhile_decomp (lstrip s).reverse
  refine ⟨u, w.reverse, ?_⟩
  have h2 : strip s ++ w.reverse = lstrip s := by
    have := congrArg List.reverse hw
    simpa [strip, rstrip, lstrip] using this
  rw [h2]; exact hu

theorem containsSub_strip (pat s : List Char)
    (h : containsSub pat (strip s) = true) : containsSub pat s = true := by
  obtain ⟨u, v, huv⟩ := strip_decomp s
  rw [← huv]
  exact containsSub_append_left _ _ _ (containsSub_append_right _ _ _ h)

theorem collapseAux_idem (s : List Char) :
    ∀ b, collapseAux b (collapseAux b s) = collapseAux b s := by
  induction s with
  | nil => intro b; rfl
  | cons c cs ih =>
    intro b
    by_cases hc : isWs c = true
    · cases b with
      | true => simp only [collapseAux, hc, if_true]; exact ih true
      | false =>
        simp only [collapseAux, hc, if_true]
        have hsp : isWs ' ' = true := by decide
        simp only [collapseAux, hsp, if_true]
        rw [ih true]
    · simp only [collapseAux, hc, Bool.false_eq_true, if_false]
      rw [ih false]

theorem lastCh_cons (x : Char) (l : List Char) (h : l ≠ []) :
    lastCh (x :: l) = lastCh l := by
  cases l with
  | nil => exact absurd rfl h
  | cons c cs => rfl

theorem lastCh_ne_nil (l : List Char) (c : Char) (h : lastCh l = some c) :
    l ≠ [] := by
  intro he; subst he; simp [lastCh] at h

theorem lastCh_some (c : Char) (cs : List Char) :
    ∃ x, lastCh (c :: cs) = some x := by
  induction cs generalizing c with
  | nil => exact ⟨c, rfl⟩
  | cons c1 cs1 ih => simpa [lastCh] using ih c1

theorem head_reverse_eq_lastCh (l : List Char) :
    l.reverse.head? = lastCh l := by
  induction l with
  | nil => rfl
  | cons c cs ih =>
    cases cs with
    | nil => rfl
    | cons c1 cs1 =>
      have hne : (c1 :: cs1).reverse ≠ [] := by simp
      calc (c :: c1 :: cs1).reverse.head?
          = ((c1 :: cs1).reverse ++ [c]).head? := by simp
        _ = (c1 :: cs1).reverse.head? := by
              cases hrev : (c1 :: cs1).reverse with
              | nil => exact absurd hrev hne
              | cons y ys => simp
        _ = lastCh (c1 :: cs1) := ih
        _ = lastCh (c :: c1 :: cs1) := rfl

theorem collapse_lastCh (s : List Char) :
    ∀ b c, lastCh s = some c → isWs c = false →
    lastCh (collapseAux b s) = some c := by
  induction s with
  | nil => intro b c h _; simp [lastCh] at h
  | cons c0 cs ih =>
    intro b c h hcws
    cases cs with
    | nil =>
      simp only [lastCh, Option.some.injEq] at h
      subst h
      cases b <;> simp [collapseAux, hcws, lastCh]
    | cons c1 cs1 =>
      have h1 : lastCh (c1 :: cs1) = some c := h
      by_cases hc0 : isWs c0 = true
      · cases b with
        | true =>
          have e : collapseAux true (c0 :: c1 :: cs1) =
              collapseAux true (c1 :: cs1) := by
            simp [collapseAux, hc0]
          rw [e]
          exact ih true c h1 hcws
        | false =>
          have e : collapseAux false (c0 :: c1 :: cs1) =
              ' ' :: collapseAux true (c1 :: cs1) := by
            simp [collapseAux, hc0]
          rw [e, lastCh_cons _ _ (lastCh_ne_nil _ _ (ih true c h1 hcws))]
          exact ih true c h1 hcws
      · have e : collapseAux b (c0 :: c1 :: cs1) =
            c0 :: collapseAux false (c1 :: cs1) := by
          simp [collapseAux, hc0]
        rw [e, lastCh_cons _ _ (lastCh_ne_nil _ _ (ih false c h1 hcws))]
        exact ih false c h1 hcws

theorem dropWhile_head_not (l : List Char) (c : Char) (cs : List Char)
    (h : l.dropWhile isWs = c :: cs) : isWs c = false := by
  induction l with
  | nil => simp at h
  | cons x xs ih =>
    by_cases hx : isWs x = true
    · rw [List.dropWhile_cons, if_pos hx] at h
      exact ih h
    · rw [List.dropWhile_cons, if_neg hx] at h
      cases h
      simpa using hx

theorem strip_head_not_ws (s : List Char) (c : Char) (cs : List Char)
    (h : strip s = c :: cs) : isWs c = false := by
  obtain ⟨w, hw⟩ := dropWhile_decomp (lstrip s).reverse
  have h2 : strip s ++ w.reverse = lstrip s := by
    have := congrArg List.reverse hw
    simpa [strip, rstrip, lstrip] using this
  rw [h] at h2
  exact dropWhile_head_not s c (cs ++ w.reverse) (by simpa [lstrip] using h2.symm)

theorem strip_last_not_ws (s : List Char) (c : Char)
    (h : lastCh (strip s) = some c) : isWs c = false := by
  rw [← head_reverse_eq_lastCh] at h
  have hrev : (strip s).reverse = (lstrip s).reverse.dropWhile isWs := by
    simp [strip, rstrip]
  rw [hrev] at h
  cases hq : (lstrip s).reverse.dropWhile isWs with
  | nil => rw [hq] at h; simp at h
  | cons y ys =>
    rw [hq] at h
    simp only [List.head?_cons, Option.some.injEq] at h
    subst h
    exact dropWhile_head_not _ _ _ hq

theorem strip_collapse_strip (s : List Char) :
    strip (collapseWs (strip s)) = collapseWs (strip s) := by
  cases hu : strip s with
  | nil => rfl
  | cons c cs =>
    have hc : isWs c = false := strip_head_not_ws s c cs hu
    have ht : collapseWs (c :: cs) = c :: collapseAux false cs := by
      simp [collapseWs, collapseAux, hc]
    obtain ⟨x, hx⟩ := lastCh_some c cs
    have hxws : isWs x = false := strip_last_not_ws s x (by rw [hu]; exact hx)
    have hlt : lastCh (collapseWs (c :: cs)) = some x :=
      collapse_lastCh (c :: cs) false x hx hxws
    have hl : lstrip (collapseWs (c :: cs)) = collapseWs (c :: cs) := by
      rw [ht, lstrip, List.dropWhile_cons, if_neg (by simp [hc])]
    have hr : rstrip (collapseWs (c :: cs)) = collapseWs (c :: cs) := by
      rw [← head_reverse_eq_lastCh] at hlt
      unfold rstrip
      cases hq : (collapseWs (c :: cs)).reverse with
      | nil =>
        rw [ht] at hq
        simp at hq
      | cons y ys =>
        rw [hq] at hlt
        simp only [List.head?_cons, Option.some.injEq] at hlt
        subst hlt
        rw [List.dropWhile_cons, if_neg (by simp [hxws]), ← hq,
          List.reverse_reverse]
    rw [strip, hl, hr]

theorem containsSub_collapse_strip_false (pat s : List Char)
    (hws : noWs pat = true) (hne : pat ≠ [])
    (h : containsSub pat s = false) :
    containsSub pat (collapseWs (strip s)) = false := by
  cases hq : containsSub pat (collapseWs (strip s)) with
  | false => rfl
  | true =>
    have hs : containsSub pat s = true :=
      containsSub_strip pat s (containsSub_collapseAux pat hws hne (strip s) false hq)
    rw [hs] at h
    simp at h

theorem clean_text_entity_free (s : List Char)
    (h1 : containsSub nbspTok s = false) (h2 : containsSub ampTok s = false) :
    clean_text s = collapseWs (strip s) := by
  by_cases hs : s = []
  · subst hs; rfl
  · have e1 : containsSub nbspTok (collapseWs (strip s)) = false :=
      containsSub_collapse_strip_false nbspTok s (by decide) (by decide) h1
    have e2 : containsSub ampTok (collapseWs (strip s)) = false :=
      containsSub_collapse_strip_false ampTok s (by decide) (by decide) h2
    have hp1 : ('&' :: nbspTok.tail) = nbspTok := by decide
    have hp2 : ('&' :: ampTok.tail) = ampTok := by decide
    have hid1 : replaceSub '&' nbspTok.tail [] (collapseWs (strip s)) =
        collapseWs (strip s) :=
      replaceSub_id _ _ _ _ (by rw [hp1]; exact e1)
    have hid2 : replaceSub '&' ampTok.tail ['&'] (collapseWs (strip s)) =
        collapseWs (strip s) :=
      replaceSub_id _ _ _ _ (by rw [hp2]; exact e2)
    rw [clean_text, if_neg hs]
    show replaceSub '&' ampTok.tail ['&']
        (replaceSub '&' nbspTok.tail [] (collapseWs (strip s))) =
      collapseWs (strip s)
    rw [hid1, hid2]

/-- Claim C3, counterexample: clean_text is not idempotent on every
string.  On the input consisting of two nbsp entities separated by one
space, the first pass deletes both entities and leaves a single space,
and the second pass strips that space away, so cleaning twice differs
from cleaning once. -/
theorem C3_clean_text_idem_counterexample :
    clean_text (clean_text ("&nbsp; &nbsp;".toList)) ≠
      clean_text ("&nbsp; &nbsp;".toList) := by
  decide

/-- Claim C3, amended: clean_text is idempotent on every string that
contains neither the nbsp entity nor the amp entity as a substring; on
such inputs cleaning already-clean text is a no-op and repeated
whitespace normalizes to the same string no matter how often clean_text
is applied.  (The unrestricted claim fails because entity removal runs
after whitespace collapsing and can recreate leading, trailing or
doubled whitespace, and amp rewriting can recreate entities.) -/
theorem C3_clean_text_idem_entity_free (s : List Char)
    (h1 : containsSub nbspTok s = false)
    (h2 : containsSub ampTok s = false) :
    clean_text (clean_text s) = clean_text s := by
  have e1 : containsSub nbspTok (collapseWs (strip s)) = false :=
    containsSub_collapse_strip_false nbspTok s (by decide) (by decide) h1
  have e2 : containsSub ampTok (collapseWs (strip s)) = false :=
    containsSub_collapse_strip_false ampTok s (by decide) (by decide) h2
  rw [clean_text_entity_free s h1 h2]
  rw [clean_text_entity_free (collapseWs (strip s)) e1 e2]
  rw [strip_collapse_strip]
  exact collapseAux_idem (strip s) false

/-- Witness for C3's amended theorem at a concrete entity-free input
with leading, trailing and repeated whitespace. -/
theorem C3_clean_text_idem_entity_free_witness :
    containsSub nbspTok ("  Real   Madrid  CF ".toList) = false ∧
    containsSub ampTok ("  Real   Madrid  CF ".toList) = false ∧
    clean_text (clean_text ("  Real   Madrid  CF ".toList)) =
      clean_text ("  Real   Madrid  CF ".toList) :=
  ⟨by decide, by decide,
    C3_clean_text_idem_entity_free _ (by decide) (by decide)⟩

/-- Claim C8: clean_text maps the exact input with doubled and tripled
spaces and one nbsp entity before FC to the normalized team name. -/
theorem C8_clean_text_manchester :
    clean_text ("  Manchester   United  &nbsp;FC ".toList) =
      "Manchester United FC".toList := by
  decide

/-- Match-odds triple of the record (odds.match_odds in the Python
dict, src/lolopal.py lines 223-227); empty text models an absent value. -/
structure MatchOdds where
  home : List Char
  draw : List Char
  away : List Char
deriving DecidableEq, Repr

/-- Over/under pair of the record (src/lolopal.py lines 228-231). -/
structure OverUnder where
  over : List Char
  under : List Char
deriving DecidableEq, Repr

/-- Both-teams-to-score pair of the record (src/lolopal.py lines
232-235). -/
structure Btts where
  yes : List Char
  no : List Char
deriving DecidableEq, Repr

/-- Odds block of the record (src/lolopal.py lines 222-236). -/
structure OddsData where
  match_odds : MatchOdds
  over_under : OverUnder
  btts : Btts
deriving DecidableEq, Repr

/-- Team names of the record (src/lolopal.py lines 211-214). -/
structure Teams where
  home : List Char
  away : List Char
deriving DecidableEq, Repr

/-- Prediction block of the record (src/lolopal.py lines 217-221). -/
structure Prediction where
  ptype : List Char
  stake : List Char
  score : List Char
deriving DecidableEq, Repr

/-- Form block of the record: outcome symbols for each side
(src/lolopal.py lines 237-240). -/
structure FormData where
  home : List Char
  away : List Char
deriving DecidableEq, Repr

/-- One extracted match record, mirroring the dictionary assembled by
extract_match_data (src/lolopal.py lines 210-243). -/
structure MatchData where
  teams : Teams
  fixture : List Char
  league : List Char
  prediction : Prediction
  odds : OddsData
  form : FormData
  has_odds : Bool
  match_url : List Char
deriving DecidableEq, Repr

/-- DOM model of one match container (.wttr subtree).  Each field holds
the query results the Python code reads: text contents are optional
because Playwright's text_content can return null, and scalar selectors
are optional because the element itself may be missing.  The odds-cell
anchors of the three category sub-containers appear in document order,
so the flat .wtocell query of the container is their concatenation;
likewise the flat form query concatenates the left-side and right-side
containers. -/
structure MatchContainer where
  teamTexts : List (Option (List Char))
  fixtureEl : Option (Option (List Char) × Option (List Char))
  stakeEl : Option (Option (List Char))
  prdEl : Option (Option (List Char))
  scoreEl : Option (Option (List Char))
  moTexts : List (Option (List Char))
  ouTexts : List (Option (List Char))
  btTexts : List (Option (List Char))
  leftFormCls : List (Option (List Char))
  rightFormCls : List (Option (List Char))
deriving DecidableEq, Repr

/-- Flat list of odds-anchor texts in document order, the result of the
container-wide query at src/lolopal.py line 295. -/
def allOdds (c : MatchContainer) : List (Option (List Char)) :=
  c.moTexts ++ c.ouTexts ++ c.btTexts

/-- Flat list of form-marker class attributes in document order, the
result of the comma-joined left/right query at src/lolopal.py line 389. -/
def allFormCls (c : MatchContainer) : List (Option (List Char)) :=
  c.leftFormCls ++ c.rightFormCls

/-- League catalogue searched by extract_league_from_fixture
(src/lolopal.py lines 188-199), paired with the hyphen-to-space
title-cased rendering returned on a match. -/
def leagueCatalogue : List (List Char × List Char) :=
  [("finland-ykkonen".toList, "Finland Ykkonen".toList),
   ("finland-kakkonen".toList, "Finland Kakkonen".toList),
   ("uzbekistan-super-league".toList, "Uzbekistan Super League".toList),
   ("club-world-cup".toList, "Club World Cup".toList),
   ("ireland-premier-division".toList, "Ireland Premier Division".toList),
   ("england-premier-league".toList, "England Premier League".toList),
   ("spain-la-liga".toList, "Spain La Liga".toList),
   ("germany-bundesliga".toList, "Germany Bundesliga".toList),
   ("italy-serie-a".toList, "Italy Serie A".toList),
   ("france-ligue-1".toList, "France Ligue 1".toList)]

/-- Model of extract_league_from_fixture (src/lolopal.py lines
182-205): the first catalogue pattern found case-insensitively inside
the fixture text wins; no match yields the empty string.  The patterns
are literal, so the regex search is a substring test on lowercased
text. -/
def extract_league_from_fixture (s : List Char) : List Char :=
  if s = [] then []
  else
    let low := s.map Char.toLower
    match leagueCatalogue.find? (fun pr => containsSub pr.1 low) with
    | some pr => pr.2
    | none => []

/-- Behaviour of the per-scalar selector blocks (src/lolopal.py lines
275-291): a missing element or a null or empty text leaves the field
empty, otherwise the text is cleaned. -/
def opt_text_field (e : Option (Option (List Char))) : List Char :=
  match e with
  | some (some t) => if t = [] then [] else clean_text t
  | some none => []
  | none => []

/-- Team-identity step (src/lolopal.py lines 246-259): with fewer than
two name elements, or a null or empty text on either of the first two,
the whole record is abandoned; otherwise both names are cleaned. -/
def teamPair (c : MatchContainer) : Option (List Char × List Char) :=
  if 2 ≤ c.teamTexts.length then
    match c.teamTexts[0]?.getD none, c.teamTexts[1]?.getD none with
    | some x, some y =>
      if x = [] ∨ y = [] then none else some (clean_text x, clean_text y)
    | _, _ => none
  else none

/-- Tier A cell read (src/lolopal.py lines 305-344): the nth anchor's
text is cleaned when present and nonempty, and the field keeps its empty
default otherwise. -/
def tierACell (t : Option (List Char)) : List Char :=
  match t with
  | some x => if x = [] then [] else clean_text x
  | none => []

/-- Tier B cell read (src/lolopal.py lines 358-376): clean_text is
applied directly to the nth anchor's text, a null text cleaning to the
empty string. -/
def tierBCell (l : List (Option (List Char))) (i : Nat) : List Char :=
  clean_text ((l[i]?.getD none).getD [])

/-- Odds extraction with its two tiers (src/lolopal.py lines 293-384).
With at least 7 anchors in the container-wide list, positions 0-2 fill
the match odds, 3-4 the over/under and 5-6 the BTTS pair, and has_odds
is set.  Otherwise each category sub-container is read independently
and filled exactly when it meets its own count minimum, and has_odds is
set when any category does. -/
def extract_odds (c : MatchContainer) : OddsData × Bool :=
  let flat := allOdds c
  if 7 ≤ flat.length then
    (⟨⟨tierACell (flat[0]?.getD none), tierACell (flat[1]?.getD none),
       tierACell (flat[2]?.getD none)⟩,
      ⟨tierACell (flat[3]?.getD none), tierACell (flat[4]?.getD none)⟩,
      ⟨tierACell (flat[5]?.getD none), tierACell (flat[6]?.getD none)⟩⟩,
     true)
  else
    let mo := c.moTexts
    let ou := c.ouTexts
    let bt := c.btTexts
    (⟨if 3 ≤ mo.length then
        ⟨tierBCell mo 0, tierBCell mo 1, tierBCell mo 2⟩
      else ⟨[], [], []⟩,
      if 2 ≤ ou.length then ⟨tierBCell ou 0, tierBCell ou 1⟩
      else ⟨[], []⟩,
      if 2 ≤ bt.length then ⟨tierBCell bt 0, tierBCell bt 1⟩
      else ⟨[], []⟩⟩,
     decide (3 ≤ mo.length) || decide (2 ≤ ou.length) ||
       decide (2 ≤ bt.length))

/-- Character list of the win-marker class token. -/
def wTok : List Char := "last5w".toList

/-- Character list of the draw-marker class token. -/
def dTok : List Char := "last5d".toList

/-- Character list of the loss-marker class token. -/
def lTok : List Char := "last5l".toList

/-- Outcome symbol of one form marker (src/lolopal.py lines 397-402):
the class attribute is tested for the three tokens in the order win,
draw, loss, and a class matching none of them is skipped. -/
def symOf (cls : List Char) : Option Char :=
  if containsSub wTok cls then some 'W'
  else if containsSub dTok cls then some 'D'
  else if containsSub lTok cls then some 'L'
  else none

/-- Guarded marker read (src/lolopal.py lines 395-396): a null or empty
class attribute is skipped before the token tests run. -/
def clsSym (e : Option (List Char)) : Option Char :=
  match e with
  | some cls => if cls = [] then none else symOf cls
  | none => none

/-- Form extraction over the flattened marker list (src/lolopal.py
lines 386-414): with at least 5 markers in total, flat positions 0-4
feed the home sequence; with at least 10, flat positions 5-9 feed the
away sequence; otherwise each side stays empty. -/
def extract_form (flat : List (Option (List Char))) : List Char × List Char :=
  let n := flat.length
  let home :=
    if 5 ≤ n then
      (List.range (min 5 n)).filterMap (fun i => clsSym (flat[i]?.getD none))
    else []
  let away :=
    if 10 ≤ n then
      (List.range' 5 (min 10 n - 5)).filterMap
        (fun i => clsSym (flat[i]?.getD none))
    else []
  (home, away)

/-- Fixture step (src/lolopal.py lines 261-272): a present link element
contributes the cleaned fixture text; a truthy href becomes the match
url and feeds the league lookup. -/
def fixture_of (c : MatchContainer) : List Char × List Char × List Char :=
  match c.fixtureEl with
  | none => ([], [], [])
  | some (ft, fu) =>
    let t := match ft with
      | some x => if x = [] then [] else clean_text x
      | none => []
    match fu with
    | some u =>
      if u = [] then (t, [], []) else (t, u, extract_league_from_fixture u)
    | none => (t, [], [])

/-- Best-effort body of extract_match_data after team identity
succeeded (src/lolopal.py lines 261-417): fixture, scalar prediction
fields, odds and form are filled into the record skeleton around the
already-cleaned team names. -/
def assemble (c : MatchContainer) (th ta : List Char) : MatchData :=
  ⟨⟨th, ta⟩, (fixture_of c).1, (fixture_of c).2.2,
   ⟨opt_text_field c.prdEl, opt_text_field c.stakeEl,
    opt_text_field c.scoreEl⟩,
   (extract_odds c).1,
   ⟨(extract_form (allFormCls c)).1, (extract_form (allFormCls c)).2⟩,
   (extract_odds c).2, (fixture_of c).2.1⟩

/-- Model of extract_match_data (src/lolopal.py lines 207-427): team
identity is resolved first and aborts the record when it fails; scalar
fields, odds and form are then filled best-effort; the record is
returned only when both cleaned team names are nonempty. -/
def extract_match_data (c : MatchContainer) : Option MatchData :=
  match teamPair c with
  | none => none
  | some (th, ta) =>
    if th = [] ∨ ta = [] then none else some (assemble c th ta)

theorem getElem?_eq_drop_head? {α : Type} : ∀ (l : List α) (s : Nat),
    l[s]? = (l.drop s).head? := by
  intro l
  induction l with
  | nil => intro s; cases s <;> rfl
  | cons c cs ih =>
    intro s
    cases s with
    | zero => simp
    | succ s =>
      rw [List.getElem?_cons_succ, List.drop_succ_cons]
      exact ih s

theorem drop_succ_eq_tail {α : Type} : ∀ (l : List α) (s : Nat),
    l.drop (s + 1) = (l.drop s).tail := by
  intro l
  induction l with
  | nil => intro s; simp
  | cons c cs ih =>
    intro s
    cases s with
    | zero => rfl
    | succ s =>
      rw [List.drop_succ_cons, List.drop_succ_cons]
      exact ih s

theorem range'_filterMap_bind {α β : Type} (g : α → Option β) :
    ∀ (k s : Nat) (l : List α),
    (List.range' s k).filterMap (fun i => (l[i]?).bind g) =
      ((l.drop s).take k).filterMap g := by
  intro k
  induction k with
  | zero => intro s l; simp
  | succ k ih =>
    intro s l
    have hr : List.range' s (k + 1) = s :: List.range' (s + 1) k := rfl
    rw [hr, List.filterMap_cons]
    cases hd : l.drop s with
    | nil =>
      have hnone : l[s]? = none := by
        rw [getElem?_eq_drop_head?, hd]; rfl
      rw [hnone]
      simp only [Option.none_bind]
      rw [ih (s + 1) l, drop_succ_eq_tail, hd]
      simp
    | cons a t =>
      have hsome : l[s]? = some a := by
        rw [getElem?_eq_drop_head?, hd]; rfl
      have hdrop : l.drop (s + 1) = t := by
        rw [drop_succ_eq_tail, hd]; rfl
      rw [hsome]
      simp only [Option.some_bind]
      rw [ih (s + 1) l, hdrop]
      cases hga : g a <;> simp [List.filterMap_cons, hga]

theorem clsSym_via_bind (flat : List (Option (List Char))) (i : Nat) :
    clsSym (flat[i]?.getD none) = (flat[i]?).bind clsSym := by
  cases h : flat[i]? with
  | none => rfl
  | some e => rfl

theorem symOf_cases (cls : List Char) (x : Char) (h : symOf cls = some x) :
    x = 'W' ∨ x = 'D' ∨ x = 'L' := by
  unfold symOf at h
  split at h
  · exact Or.inl (Option.some.inj h).symm
  · split at h
    · exact Or.inr (Or.inl (Option.some.inj h).symm)
    · split at h
      · exact Or.inr (Or.inr (Option.some.inj h).symm)
      · exact absurd h (by simp)

theorem clsSym_cases (e : Option (List Char)) (x : Char)
    (h : clsSym e = some x) : x = 'W' ∨ x = 'D' ∨ x = 'L' := by
  cases e with
  | none => simp [clsSym] at h
  | some cls =>
    by_cases hc : cls = []
    · simp [clsSym, hc] at h
    · simp only [clsSym, if_neg hc] at h
      exact symOf_cases cls x h

/-- Claim C10: the implemented form extraction is gated on the total
flattened marker count across both side containers.  Fewer than 5
markers in total leave both sides empty; the away side is populated only
when at least 10 markers are found, and then from flattened positions 5
through 9; the home side, when populated, comes from flattened positions
0 through 4; every emitted symbol is one of W, D, L, and markers whose
class matches none of the three recognized form classes are skipped by
the filtering map. -/
theorem C10_form_flattened_characterization
    (left right : List (Option (List Char))) :
    ((left ++ right).length < 5 →
      (extract_form (left ++ right)).1 = [] ∧
      (extract_form (left ++ right)).2 = []) ∧
    ((extract_form (left ++ right)).2 ≠ [] → 10 ≤ (left ++ right).length) ∧
    (5 ≤ (left ++ right).length →
      (extract_form (left ++ right)).1 =
        ((left ++ right).take 5).filterMap clsSym) ∧
    (10 ≤ (left ++ right).length →
      (extract_form (left ++ right)).2 =
        (((left ++ right).drop 5).take 5).filterMap clsSym) ∧
    (∀ x, x ∈ (extract_form (left ++ right)).1 ++
        (extract_form (left ++ right)).2 →
      x = 'W' ∨ x = 'D' ∨ x = 'L') := by
  set flat := left ++ right with hflat
  refine ⟨?_, ?_, ?_, ?_, ?_⟩
  · intro h
    have h5 : ¬ 5 ≤ flat.length := by omega
    have h10 : ¬ 10 ≤ flat.length := by omega
    simp [extract_form, h5, h10]
  · intro h
    by_contra h10
    apply h
    simp [extract_form, h10]
  · intro h5
    have hmin : min 5 flat.length = 5 := by omega
    simp only [extract_form, if_pos h5, hmin]
    have : (List.range 5).filterMap (fun i => clsSym (flat[i]?.getD none)) =
        (List.range 5).filterMap (fun i => (flat[i]?).bind clsSym) := by
      apply List.filterMap_congr
      intro i _
      exact clsSym_via_bind flat i
    rw [this, List.range_eq_range', range'_filterMap_bind clsSym 5 0 flat]
    simp
  · intro h10
    have hmin : min 10 flat.length = 10 := by omega
    simp only [extract_form, if_pos h10, hmin]
    have : (List.range' 5 (10 - 5)).filterMap
          (fun i => clsSym (flat[i]?.getD none)) =
        (List.range' 5 (10 - 5)).filterMap
          (fun i => (flat[i]?).bind clsSym) := by
      apply List.filterMap_congr
      intro i _
      exact clsSym_via_bind flat i
    rw [this, range'_filterMap_bind clsSym (10 - 5) 5 flat]
  · intro x hx
    rw [List.mem_append] at hx
    have hmem : ∀ (l : List Nat),
        x ∈ l.filterMap (fun i => clsSym (flat[i]?.getD none)) →
        x = 'W' ∨ x = 'D' ∨ x = 'L' := by
      intro l hl
      rw [List.mem_filterMap] at hl
      obtain ⟨i, _, hi⟩ := hl
      exact clsSym_cases _ x hi
    rcases hx with hx | hx
    · simp only [extract_form] at hx
      split at hx
      · exact hmem _ hx
      · simp at hx
    · simp only [extract_form] at hx
      split at hx
      · exact hmem _ hx
      · simp at hx

/-- Witness for C10 at two concrete flattened lists: three markers in
total leave both sides empty, and ten recognized markers fill both
sides from their flat slices. -/
theorem C10_form_flattened_characterization_witness :
    ((extract_form
        ([some ("last5w".toList)] ++ [some ("last5d".toList)])).1 = [] ∧
      (extract_form
        ([some ("last5w".toList)] ++ [some ("last5d".toList)])).2 = []) ∧
    (extract_form
        (List.replicate 5 (some ("last5w".toList)) ++
         List.replicate 5 (some ("last5l".toList)))).1 =
      ((List.replicate 5 (some ("last5w".toList)) ++
        List.replicate 5 (some ("last5l".toList))).take 5).filterMap clsSym ∧
    (extract_form
        (List.replicate 5 (some ("last5w".toList)) ++
         List.replicate 5 (some ("last5l".toList)))).2 =
      (((List.replicate 5 (some ("last5w".toList)) ++
         List.replicate 5 (some ("last5l".toList))).drop 5).take 5).filterMap
        clsSym :=
  ⟨(C10_form_flattened_characterization _ _).1 (by decide),
   (C10_form_flattened_characterization _ _).2.2.1 (by decide),
   (C10_form_flattened_characterization _ _).2.2.2.1 (by decide)⟩

/-- Modelled from the spec (section 4.3 step 4): container-identity form
attribution, in which the left-side container and the right-side
container are each independently queried for up to 5 outcome markers.
This definition follows the specification's words and exists only to be
compared with the implemented extract_form. -/
def form_extract_sided (left right : List (Option (List Char))) :
    List Char × List Char :=
  ((left.take 5).filterMap clsSym, (right.take 5).filterMap clsSym)

/-- Left-side marker list of the failing input for claim C1: a home
side with only three historical results. -/
def c1Left : List (Option (List Char)) :=
  [some ("last5w".toList), some ("last5w".toList), some ("last5w".toList)]

/-- Right-side marker list of the failing input for claim C1: an away
side with five draw results. -/
def c1Right : List (Option (List Char)) :=
  List.replicate 5 (some ("last5d".toList))

/-- Claim C1, divergence witness: on a container whose left side has
only 3 outcome markers and whose right side has 5, the implemented
extraction slices the flattened cross-container list at offsets 0-4 and
5-9, so two of the away side's draws leak into form.home and form.away
stays empty, while the container-identity attribution demanded by the
claim yields three wins for home and five draws for away. -/
theorem C1_form_attribution_failing_input :
    extract_form (c1Left ++ c1Right) =
      (['W', 'W', 'W', 'D', 'D'], []) ∧
    form_extract_sided c1Left c1Right =
      (['W', 'W', 'W'], ['D', 'D', 'D', 'D', 'D']) ∧
    extract_form (c1Left ++ c1Right) ≠ form_extract_sided c1Left c1Right := by
  refine ⟨by decide, by decide, by decide⟩

theorem extract_eq_some (c : MatchContainer) (r : MatchData)
    (h : extract_match_data c = some r) :
    ∃ th ta, teamPair c = some (th, ta) ∧ ¬(th = [] ∨ ta = []) ∧
      r = assemble c th ta := by
  unfold extract_match_data at h
  split at h
  · exact absurd h (by simp)
  · rename_i th ta heq
    split at h
    · exact absurd h (by simp)
    · rename_i hcond
      exact ⟨th, ta, heq, hcond, (Option.some.inj h).symm⟩

/-- Claim C5: every record returned by extract_match_data carries
nonempty home and away team names; a container with fewer than two name
elements yields no record; and when either of the first two names is
missing or cleans to the empty string, the container again yields no
record instead of a record with a blank side. -/
theorem C5_teams_nonempty (c : MatchContainer) :
    (∀ r, extract_match_data c = some r →
      r.teams.home ≠ [] ∧ r.teams.away ≠ []) ∧
    (c.teamTexts.length < 2 → extract_match_data c = none) ∧
    (∀ x y, c.teamTexts[0]? = some x → c.teamTexts[1]? = some y →
      (clean_text (x.getD []) = [] ∨ clean_text (y.getD []) = []) →
      extract_match_data c = none) := by
  refine ⟨?_, ?_, ?_⟩
  · intro r h
    obtain ⟨th, ta, -, hcond, hr⟩ := extract_eq_some c r h
    push_neg at hcond
    rw [hr]
    exact hcond
  · intro hlt
    have hp : teamPair c = none := by
      unfold teamPair
      rw [if_neg (by omega)]
    unfold extract_match_data
    rw [hp]
  · intro x y hx hy hcl
    unfold extract_match_data teamPair
    by_cases hlen : 2 ≤ c.teamTexts.length
    · rw [if_pos hlen, hx, hy]
      cases x with
      | none => rfl
      | some xv =>
        cases y with
        | none => rfl
        | some yv =>
          simp only [Option.getD_some]
          by_cases hxe : xv = []
          · rw [if_pos (Or.inl hxe)]
          · by_cases hye : yv = []
            · rw [if_pos (Or.inr hye)]
            · rw [if_neg (by tauto)]
              simp only [Option.getD_some] at hcl
              show (if clean_text xv = [] ∨ clean_text yv = [] then none
                else some (assemble c (clean_text xv) (clean_text yv))) = none
              rw [if_pos hcl]
    · rw [if_neg hlen]

/-- Concrete container for the C5 witness: two nonempty team names and
nothing else. -/
def c5Good : MatchContainer :=
  ⟨[some ['A'], some ['B']], none, none, none, none, [], [], [], [], []⟩

/-- Record produced for c5Good. -/
def c5Rec : MatchData :=
  ⟨⟨['A'], ['B']⟩, [], [], ⟨[], [], []⟩,
   ⟨⟨[], [], []⟩, ⟨[], []⟩, ⟨[], []⟩⟩, ⟨[], []⟩, false, []⟩

/-- Concrete container for the C5 witness negative half: a single name
element. -/
def c5Bad : MatchContainer :=
  ⟨[some ['A']], none, none, none, none, [], [], [], [], []⟩

/-- Witness for C5: the produced record of a well-formed container has
nonempty team names, and a container with one name element yields no
record. -/
theorem C5_teams_nonempty_witness :
    (c5Rec.teams.home ≠ [] ∧ c5Rec.teams.away ≠ []) ∧
    extract_match_data c5Bad = none :=
  ⟨(C5_teams_nonempty c5Good).1 c5Rec (by decide),
   (C5_teams_nonempty c5Bad).2.1 (by decide)⟩

/-- Spec-side predicate used by claim C2: at least one odds category
has all of its required sub-fields non-empty (all 3 match-odds values,
both over/under values, or both BTTS values).  This definition follows
the claim's words and exists only to be compared with the implemented
has_odds flag. -/
def odds_category_full (o : OddsData) : Bool :=
  (!o.match_odds.home.isEmpty && !o.match_odds.draw.isEmpty &&
    !o.match_odds.away.isEmpty) ||
  (!o.over_under.over.isEmpty && !o.over_under.under.isEmpty) ||
  (!o.btts.yes.isEmpty && !o.btts.no.isEmpty)

/-- Counterexample container for claim C2: valid teams and seven odds
anchors whose texts are all empty, so Tier A fires and sets has_odds
although every odds field stays empty. -/
def c2Bad : MatchContainer :=
  ⟨[some ['A'], some ['B']], none, none, none, none,
   List.replicate 7 (some []), [], [], [], []⟩

/-- Claim C2, counterexample: the produced record for c2Bad has
has_odds = true while no odds category has all of its sub-fields
non-empty, so the claimed equivalence fails in the right-to-left
reading of the record's contents. -/
theorem C2_has_odds_counterexample :
    (extract_match_data c2Bad).map
      (fun r => (r.has_odds, odds_category_full r.odds)) =
      some (true, false) := by
  decide

/-- Claim C2, amended: has_odds reflects the anchor counts rather than
the populated fields.  For every produced record, has_odds = true iff
the container-wide anchor list has at least 7 entries (Tier A), or it
has fewer than 7 and at least one category sub-container meets its own
count minimum (3 for match odds, 2 for over/under, 2 for BTTS).  When
every counted anchor carries nonempty text this coincides with the
original claim, but anchors with empty or null text make has_odds true
with empty fields. -/
theorem C2_has_odds_iff_counts (c : MatchContainer) (r : MatchData)
    (h : extract_match_data c = some r) :
    r.has_odds = true ↔
      (7 ≤ (allOdds c).length ∨
        ((allOdds c).length < 7 ∧
          (3 ≤ c.moTexts.length ∨ 2 ≤ c.ouTexts.length ∨
            2 ≤ c.btTexts.length))) := by
  obtain ⟨th, ta, -, -, hr⟩ := extract_eq_some c r h
  have hflag : r.has_odds = (extract_odds c).2 := by rw [hr]; rfl
  rw [hflag]
  unfold extract_odds
  by_cases h7 : 7 ≤ (allOdds c).length
  · simp [h7]
  · have h7' : (allOdds c).length < 7 := by omega
    simp only [if_neg h7]
    simp only [Bool.or_eq_true, decide_eq_true_eq]
    constructor
    · intro hcase
      exact Or.inr ⟨h7', by tauto⟩
    · intro hcase
      rcases hcase with hcase | hcase
      · omega
      · tauto

/-- Concrete container for the C2 witness: three match-odds anchors
with real texts and nothing else, so Tier B fires for match odds. -/
def c2Good : MatchContainer :=
  ⟨[some ['A'], some ['B']], none, none, none, none,
   [some ['2'], some ['3'], some ['4']], [], [], [], []⟩

/-- Record produced for c2Good. -/
def c2Rec : MatchData :=
  ⟨⟨['A'], ['B']⟩, [], [], ⟨[], [], []⟩,
   ⟨⟨['2'], ['3'], ['4']⟩, ⟨[], []⟩, ⟨[], []⟩⟩, ⟨[], []⟩, true, []⟩

/-- Witness for C2's amended theorem at c2Good, whose record has
has_odds = true with the match-odds count at its minimum. -/
theorem C2_has_odds_iff_counts_witness :
    c2Rec.has_odds = true ↔
      (7 ≤ (allOdds c2Good).length ∨
        ((allOdds c2Good).length < 7 ∧
          (3 ≤ c2Good.moTexts.length ∨ 2 ≤ c2Good.ouTexts.length ∨
            2 ≤ c2Good.btTexts.length))) :=
  C2_has_odds_iff_counts c2Good c2Rec (by decide)

/-- Claim C4: with at least 7 odds anchors in document order, Tier A
fills match odds from positions 0-2, over/under from positions 3-4 and
BTTS from positions 5-6 and sets has_odds; with fewer than 7, Tier B
reads each category sub-container independently, fills a category
exactly when it meets its own minimum (3, 2, 2), leaves it empty
otherwise, and sets has_odds exactly when some category met its
minimum, so one category can succeed while another yields nothing. -/
theorem C4_odds_tiers (c : MatchContainer) :
    (7 ≤ (allOdds c).length →
      (extract_odds c).1.match_odds =
        ⟨tierACell ((allOdds c)[0]?.getD none),
         tierACell ((allOdds c)[1]?.getD none),
         tierACell ((allOdds c)[2]?.getD none)⟩ ∧
      (extract_odds c).1.over_under =
        ⟨tierACell ((allOdds c)[3]?.getD none),
         tierACell ((allOdds c)[4]?.getD none)⟩ ∧
      (extract_odds c).1.btts =
        ⟨tierACell ((allOdds c)[5]?.getD none),
         tierACell ((allOdds c)[6]?.getD none)⟩ ∧
      (extract_odds c).2 = true) ∧
    ((allOdds c).length < 7 →
      (3 ≤ c.moTexts.length →
        (extract_odds c).1.match_odds =
          ⟨tierBCell c.moTexts 0, tierBCell c.moTexts 1,
           tierBCell c.moTexts 2⟩) ∧
      (c.moTexts.length < 3 → (extract_odds c).1.match_odds = ⟨[], [], []⟩) ∧
      (2 ≤ c.ouTexts.length →
        (extract_odds c).1.over_under =
          ⟨tierBCell c.ouTexts 0, tierBCell c.ouTexts 1⟩) ∧
      (c.ouTexts.length < 2 → (extract_odds c).1.over_under = ⟨[], []⟩) ∧
      (2 ≤ c.btTexts.length →
        (extract_odds c).1.btts =
          ⟨tierBCell c.btTexts 0, tierBCell c.btTexts 1⟩) ∧
      (c.btTexts.length < 2 → (extract_odds c).1.btts = ⟨[], []⟩) ∧
      ((extract_odds c).2 = true ↔
        (3 ≤ c.moTexts.length ∨ 2 ≤ c.ouTexts.length ∨
          2 ≤ c.btTexts.length))) := by
  constructor
  · intro h7
    refine ⟨?_, ?_, ?_, ?_⟩ <;> simp [extract_odds, if_pos h7]
  · intro h7'
    have h7 : ¬ 7 ≤ (allOdds c).length := by omega
    refine ⟨?_, ?_, ?_, ?_, ?_, ?_, ?_⟩
    · intro hmo
      simp [extract_odds, if_neg h7, if_pos hmo]
    · intro hmo
      simp [extract_odds, if_neg h7, if_neg (show ¬ 3 ≤ c.moTexts.length by omega)]
    · intro hou
      simp [extract_odds, if_neg h7, if_pos hou]
    · intro hou
      simp [extract_odds, if_neg h7, if_neg (show ¬ 2 ≤ c.ouTexts.length by omega)]
    · intro hbt
      simp [extract_odds, if_neg h7, if_pos hbt]
    · intro hbt
      simp [extract_odds, if_neg h7, if_neg (show ¬ 2 ≤ c.btTexts.length by omega)]
    · simp only [extract_odds, if_neg h7, Bool.or_eq_true, decide_eq_true_eq]
      tauto

/-- Concrete container for the C4 witness's Tier A half: seven anchors
in document order spread over the three category sub-containers. -/
def c4A : MatchContainer :=
  ⟨[some ['A'], some ['B']], none, none, none, none,
   [some ['1'], some ['2'], some ['3']], [some ['4'], some ['5']],
   [some ['6'], some ['7']], [], []⟩

/-- Concrete container for the C4 witness's Tier B half: three
match-odds anchors and a single BTTS anchor below that category's
minimum, so the categories behave independently. -/
def c4B : MatchContainer :=
  ⟨[some ['A'], some ['B']], none, none, none, none,
   [some ['1'], some ['2'], some ['3']], [], [some ['9']], [], []⟩

/-- Witness for C4: Tier A fills all categories on c4A; on c4B the
match-odds category succeeds while BTTS stays empty. -/
theorem C4_odds_tiers_witness :
    ((extract_odds c4A).1.match_odds =
        ⟨tierACell ((allOdds c4A)[0]?.getD none),
         tierACell ((allOdds c4A)[1]?.getD none),
         tierACell ((allOdds c4A)[2]?.getD none)⟩ ∧
      (extract_odds c4A).1.over_under =
        ⟨tierACell ((allOdds c4A)[3]?.getD none),
         tierACell ((allOdds c4A)[4]?.getD none)⟩ ∧
      (extract_odds c4A).1.btts =
        ⟨tierACell ((allOdds c4A)[5]?.getD none),
         tierACell ((allOdds c4A)[6]?.getD none)⟩ ∧
      (extract_odds c4A).2 = true) ∧
    (extract_odds c4B).1.match_odds =
      ⟨tierBCell c4B.moTexts 0, tierBCell c4B.moTexts 1,
       tierBCell c4B.moTexts 2⟩ ∧
    (extract_odds c4B).1.btts = ⟨[], []⟩ :=
  ⟨(C4_odds_tiers c4A).1 (by decide),
   ((C4_odds_tiers c4B).2 (by decide)).1 (by decide),
   ((C4_odds_tiers c4B).2 (by decide)).2.2.2.2.2.1 (by decide)⟩

/-- Outcome of one navigation attempt as fetch_page observes it
(src/lolopal.py lines 106-167): whether a Playwright timeout occurred,
the optional HTTP status of the response, whether the Cloudflare
challenge text was present (the code only sleeps on it, so it carries no
control-flow weight), and the number of match containers found. -/
structure Attempt where
  timeout : Bool
  status : Option Nat
  challenge : Bool
  matchesFound : Nat
deriving DecidableEq, Repr

/-- Fatal outcomes of fetch_page after the attempt budget is spent. -/
inductive FetchErr where
  | timeoutExhausted
  | blocked
  | httpStatus
deriving DecidableEq, Repr

/-- Retry loop of fetch_page (src/lolopal.py lines 106-169) over a
schedule of attempt outcomes.  The first component is the overall
result (the ok-false fall-through mirrors the dead return False after
the loop), the second the number of attempts executed.  One attempt
classifies, in the code's order: a timeout, a 403 status, any other
status of at least 400, then the zero-container check; each retries on
a non-final attempt and, on the final one, raises (or, for zero
containers, returns success). -/
def fetch_go (o : Nat → Attempt) : Nat → Nat → Except FetchErr Bool × Nat
  | 0, i => (.ok false, i)
  | rem + 1, i =>
    if (o i).timeout then
      if rem = 0 then (.error .timeoutExhausted, i + 1)
      else fetch_go o rem (i + 1)
    else
      match (o i).status with
      | some st =>
        if st = 403 then
          if rem = 0 then (.error .blocked, i + 1) else fetch_go o rem (i + 1)
        else if 400 ≤ st then
          if rem = 0 then (.error .httpStatus, i + 1)
          else fetch_go o rem (i + 1)
        else
          if (o i).matchesFound = 0 then
            if rem = 0 then (.ok true, i + 1) else fetch_go o rem (i + 1)
          else (.ok true, i + 1)
      | none =>
        if (o i).matchesFound = 0 then
          if rem = 0 then (.ok true, i + 1) else fetch_go o rem (i + 1)
        else (.ok true, i + 1)

/-- fetch_page with the configured budget of 3 attempts
(src/lolopal.py line 103). -/
def fetch_page (o : Nat → Attempt) : Except FetchErr Bool × Nat :=
  fetch_go o 3 0

/-- Sleep computed before retrying the attempt with 0-based index
attempt, executed only when attempt is positive (src/lolopal.py lines
110-113): base delay 10 doubled per retry plus the random jitter drawn
from the interval from 2 to 5, supplied here as a function of the
attempt index. -/
def backoff_delay (j : Nat → ℚ) (attempt : Nat) : ℚ :=
  10 * 2 ^ (attempt - 1) + j attempt

/-- Status classification of one attempt: no response, or a status
that is neither 403 nor any other value of at least 400. -/
def status_ok (a : Attempt) : Bool :=
  match a.status with
  | none => true
  | some st => !(st == 403) && decide (st < 400)

/-- An attempt that makes the loop continue when retries remain: a
timeout, a retryable status, or a clean load with zero containers. -/
def attempt_retries (a : Attempt) : Bool :=
  a.timeout ||
    (match a.status with
     | some st => st == 403 || decide (400 ≤ st)
     | none => false) ||
    (!a.timeout && status_ok a && decide (a.matchesFound = 0))

/-- Counters of the scrape_info block written by save_data
(src/lolopal.py lines 466-475); the timestamp and source url fields are
constants of the run and are omitted. -/
structure ScrapeInfo where
  total_matches : Nat
  matches_with_odds : Nat
  matches_without_odds : Nat
deriving DecidableEq, Repr

/-- Summary assembly of save_data (src/lolopal.py lines 466-475). -/
def make_summary (ms : List MatchData) : ScrapeInfo :=
  ⟨ms.length, (ms.filter (fun m => m.has_odds)).length,
   (ms.filter (fun m => !m.has_odds)).length⟩

/-- Summary written by one run (src/lolopal.py lines 523-565): a
successful fetch extracts records from the page's containers, while a
false fetch result or a raised error still saves a summary over the
empty list. -/
def run_result (o : Nat → Attempt) (cs : List MatchContainer) : ScrapeInfo :=
  match (fetch_page o).1 with
  | .ok true => make_summary (cs.filterMap extract_match_data)
  | _ => make_summary []

theorem fetch_go_attempts (o : Nat → Attempt) :
    ∀ rem i, (fetch_go o rem i).2 ≤ i + rem := by
  intro rem
  induction rem with
  | zero => intro i; simp [fetch_go]
  | succ rem ih =>
    intro i
    have hstep := ih (i + 1)
    unfold fetch_go
    repeat' split
    all_goals
      first
      | exact le_trans hstep (by omega)
      | (show i + 1 ≤ i + (rem + 1); omega)

theorem fetch_go_retry_step (o : Nat → Attempt) (rem i : Nat)
    (hrem : rem ≠ 0) (h : attempt_retries (o i) = true) :
    fetch_go o (rem + 1) i = fetch_go o rem (i + 1) := by
  unfold attempt_retries status_ok at h
  conv_lhs => rw [fetch_go]
  rcases ho : o i with ⟨tmo, sta, ch, mf⟩
  rw [ho] at h
  cases tmo with
  | true => simp [hrem]
  | false =>
    cases sta with
    | some st =>
      simp only [Bool.false_eq_true, Bool.or_eq_true, Bool.and_eq_true,
        beq_iff_eq, decide_eq_true_eq, false_or, Bool.not_false, true_and,
        Bool.not_eq_eq_eq_not, Bool.not_true, beq_eq_false_iff_ne] at h
      by_cases h403 : st = 403
      · simp [h403, hrem]
      · by_cases h400 : 400 ≤ st
        · simp [h403, h400, hrem]
        · have hm : mf = 0 := by tauto
          simp [h403, h400, hm, hrem]
    | none =>
      simp only [Bool.false_eq_true, Bool.or_eq_true, Bool.and_eq_true,
        decide_eq_true_eq, false_or, Bool.not_false, true_and] at h
      have hm : mf = 0 := by tauto
      simp [hm, hrem]

theorem fetch_go_final_empty (o : Nat → Attempt) (i : Nat)
    (ht : (o i).timeout = false) (hs : status_ok (o i) = true)
    (hm : (o i).matchesFound = 0) :
    fetch_go o 1 i = (.ok true, i + 1) := by
  conv_lhs => rw [fetch_go]
  rcases ho : o i with ⟨tmo, sta, ch, mf⟩
  rw [ho] at ht hs hm
  have ht2 : tmo = false := ht
  have hm2 : mf = 0 := hm
  subst ht2
  unfold status_ok at hs
  cases sta with
  | some st =>
    simp only [Bool.and_eq_true, Bool.not_eq_eq_eq_not, Bool.not_true,
      decide_eq_true_eq, beq_eq_false_iff_ne] at hs
    have h400 : ¬ 400 ≤ st := by omega
    simp [hs.1, h400, hm2]
  | none => simp [hm2]

/-- Claim C6: when the first two attempts are retryable and the final
attempt loads cleanly with zero match containers, fetch_page returns
success after its full budget, and the run still writes a summary over
the empty match list whose total_matches is 0. -/
theorem C6_zero_match_success (o : Nat → Attempt)
    (h0 : attempt_retries (o 0) = true)
    (h1 : attempt_retries (o 1) = true)
    (h2t : (o 2).timeout = false) (h2s : status_ok (o 2) = true)
    (h2m : (o 2).matchesFound = 0) :
    fetch_page o = (.ok true, 3) ∧
    run_result o [] = make_summary [] ∧
    (run_result o []).total_matches = 0 := by
  have hf : fetch_page o = (.ok true, 3) := by
    unfold fetch_page
    rw [show (3 : Nat) = 2 + 1 from rfl, fetch_go_retry_step o 2 0 (by omega) h0]
    rw [show (2 : Nat) = 1 + 1 from rfl, fetch_go_retry_step o 1 1 (by omega) h1]
    exact fetch_go_final_empty o 2 h2t h2s h2m
  refine ⟨hf, ?_, ?_⟩
  · unfold run_result
    rw [hf]
    rfl
  · unfold run_result
    rw [hf]
    rfl

/-- Attempt schedule of the C6 witness: two 403 responses followed by a
clean load with zero containers. -/
def c6Sched : Nat → Attempt := fun i =>
  if i = 2 then ⟨false, some 200, false, 0⟩ else ⟨false, some 403, false, 0⟩

/-- Witness for C6 at the concrete schedule c6Sched. -/
theorem C6_zero_match_success_witness :
    fetch_page c6Sched = (.ok true, 3) ∧
    (run_result c6Sched []).total_matches = 0 :=
  ⟨(C6_zero_match_success c6Sched (by decide) (by decide) (by decide)
      (by decide) (by decide)).1,
   (C6_zero_match_success c6Sched (by decide) (by decide) (by decide)
      (by decide) (by decide)).2.2⟩

/-- Claim C7: the fetch loop executes at most the configured 3
attempts, the sleep before the retry with 0-based index a is the base
delay 10 doubled per retry plus the jitter, and with the jitter drawn
from the interval from 2 to 5 the sleep before each retry never
decreases from one retry to the next. -/
theorem C7_retry_bound_and_backoff :
    (∀ (o : Nat → Attempt), (fetch_page o).2 ≤ 3) ∧
    (∀ (j : Nat → ℚ), (∀ m, 2 ≤ j m ∧ j m ≤ 5) →
      ∀ a, 1 ≤ a → backoff_delay j a ≤ backoff_delay j (a + 1)) := by
  constructor
  · intro o
    simpa using fetch_go_attempts o 3 0
  · intro j hj a ha
    obtain ⟨b, rfl⟩ : ∃ b, a = b + 1 := ⟨a - 1, by omega⟩
    have h2b : (1 : ℚ) ≤ 2 ^ b := by
      exact_mod_cast Nat.one_le_two_pow
    unfold backoff_delay
    have e1 : b + 1 - 1 = b := by omega
    have e2 : b + 1 + 1 - 1 = b + 1 := by omega
    rw [e1, e2, pow_succ]
    have hja := hj (b + 1)
    have hjb := hj (b + 2)
    nlinarith

/-- Attempt schedule of the C7 witness: every attempt loads cleanly
with five containers. -/
def c7Sched : Nat → Attempt := fun _ => ⟨false, some 200, false, 5⟩

/-- Constant jitter of the C7 witness, inside the interval 2 to 5. -/
def c7Jit : Nat → ℚ := fun _ => 3

/-- Witness for C7 at the concrete schedule and jitter. -/
theorem C7_retry_bound_and_backoff_witness :
    (fetch_page c7Sched).2 ≤ 3 ∧
    backoff_delay c7Jit 1 ≤ backoff_delay c7Jit 2 :=
  ⟨C7_retry_bound_and_backoff.1 c7Sched,
   C7_retry_bound_and_backoff.2 c7Jit (fun m => by norm_num [c7Jit]) 1
     (le_refl 1)⟩

/-- Claim C9: the counters of every saved summary partition the record
list: with-odds plus without-odds equals the total, the total is the
length of the match list, and the two split counters count exactly the
records whose has_odds flag is true, respectively false. -/
theorem C9_summary_partition (ms : List MatchData) :
    (make_summary ms).matches_with_odds +
      (make_summary ms).matches_without_odds =
      (make_summary ms).total_matches ∧
    (make_summary ms).total_matches = ms.length ∧
    (make_summary ms).matches_with_odds =
      (ms.filter (fun m => m.has_odds)).length ∧
    (make_summary ms).matches_without_odds =
      (ms.filter (fun m => !m.has_odds)).length := by
  refine ⟨?_, rfl, rfl, rfl⟩
  show (ms.filter (fun m => m.has_odds)).length +
    (ms.filter (fun m => !m.has_odds)).length = ms.length
  induction ms with
  | nil => rfl
  | cons m t ih =>
    cases hm : m.has_odds <;> simp [List.filter_cons, hm] <;> omega

end Lolopal
